import Mathlib

/-!
Verification development for the ari-client library (lib/client.js).

The definitions below are a shallow embedding of the WebSocket lifecycle
handlers, the event demultiplexer, and the HTTP operation glue found in
lib/client.js (Client.prototype.start, Client.prototype.stop, processMessage,
processOpen, processClose, processError, reconnect, callSwagger,
processResponse, swaggerError).  Parts of the library that live in
lib/resources.js and lib/utils.js are not available; where a definition
depends on them it is modelled from the specification and marked as such in
its doc comment.
-/

namespace AriClient

/-! ## WebSocket lifecycle (Client.prototype.start / stop)

State carried across the handlers installed by start():
`wsClosed` is self._wsClosed (set by stop, consumed by processClose),
`processingError` is the processingError local of start(),
`retriesLeft` models the remaining budget of the opaque backoff module:
retry(connect) schedules a reconnect and returns true while budget remains,
and returns false once the budget is exhausted. -/

structure WsState where
  wsClosed : Bool
  processingError : Bool
  retriesLeft : Nat
deriving DecidableEq, Repr

/-- The stimuli handled by the client: the three socket events wired in
connect() plus an explicit call to Client.prototype.stop. -/
inductive WsEvent where
  | opened
  | closed
  | errored
  | stopCall
deriving DecidableEq, Repr

/-- Observable effects of one handler invocation: lifecycle events emitted on
the client and the number of reconnect attempts scheduled. -/
structure WsEffects where
  emits : List String
  reconnects : Nat
deriving DecidableEq, Repr

def noEffects : WsEffects := ⟨[], 0⟩

/-- The delay option passed to backoff.create in Client.prototype.start. -/
def backoffStartDelay : Nat := 100

/-- The reconnect helper of start(): scheduled = retry(connect); when the
backoff refuses to schedule, WebSocketMaxRetries is emitted. -/
def reconnectStep (s : WsState) : WsState × WsEffects :=
  if s.retriesLeft > 0 then
    ({ s with retriesLeft := s.retriesLeft - 1 }, ⟨[], 1⟩)
  else
    (s, ⟨["WebSocketMaxRetries"], 0⟩)

/-- One handler invocation, translated clause by clause from processOpen,
processClose, processError and Client.prototype.stop. -/
def step (s : WsState) : WsEvent → WsState × WsEffects
  | WsEvent.opened => ({ s with processingError := false }, noEffects)
  | WsEvent.closed =>
      if s.wsClosed then ({ s with wsClosed := false }, noEffects)
      else if s.processingError then (s, noEffects)
      else reconnectStep s
  | WsEvent.errored =>
      if s.wsClosed then (s, noEffects)
      else reconnectStep { s with processingError := true }
  | WsEvent.stopCall => ({ s with wsClosed := true }, noEffects)

/-- Run a sequence of stimuli, accumulating the effects. -/
def runEvents (s : WsState) : List WsEvent → WsState × WsEffects
  | [] => (s, noEffects)
  | e :: es =>
      let p := step s e
      let q := runEvents p.1 es
      (q.1, ⟨p.2.emits ++ q.2.emits, p.2.reconnects + q.2.reconnects⟩)

/-- The event stream a single already-stopped socket can still produce: the
ws library delivers error events, idempotent stop calls may interleave, and
at most one close event arrives, as the final event of the socket. -/
inductive StopTail : List WsEvent → Prop
  | nil : StopTail []
  | lastClose : StopTail [WsEvent.closed]
  | consError {es : List WsEvent} : StopTail es → StopTail (WsEvent.errored :: es)
  | consStop {es : List WsEvent} : StopTail es → StopTail (WsEvent.stopCall :: es)

lemma runEvents_reconnects_cons (s : WsState) (e : WsEvent) (es : List WsEvent) :
    (runEvents s (e :: es)).2.reconnects
      = (step s e).2.reconnects + (runEvents (step s e).1 es).2.reconnects := rfl

lemma stopTail_no_reconnect {es : List WsEvent} (h : StopTail es) :
    ∀ s : WsState, s.wsClosed = true → (runEvents s es).2.reconnects = 0 := by
  induction h with
  | nil => intro s _; rfl
  | lastClose =>
      intro s hw
      simp [runEvents, step, hw, noEffects]
  | consError h ih =>
      intro s hw
      rw [runEvents_reconnects_cons]
      have hstep : step s WsEvent.errored = (s, noEffects) := by
        simp [step, hw]
      rw [hstep]
      simpa [noEffects] using ih s hw
  | consStop h ih =>
      intro s hw
      rw [runEvents_reconnects_cons]
      have hstep : step s WsEvent.stopCall = ({ s with wsClosed := true }, noEffects) := rfl
      rw [hstep]
      simpa [noEffects] using ih { s with wsClosed := true } rfl

/-- Claim C2 counterexample: at an explicit concrete state, the open handler
emits no WebSocketConnected event and the close handler (not stopped, no
in-flight error) emits no WebSocketReconnecting event, contrary to the claim
that both lifecycle events are emitted. -/
theorem ws_lifecycle_events_cex :
    ¬ ("WebSocketConnected" ∈ (step ⟨false, true, 5⟩ WsEvent.opened).2.emits) ∧
    ¬ ("WebSocketReconnecting" ∈ (step ⟨false, false, 5⟩ WsEvent.closed).2.emits) := by
  constructor <;> simp [step, reconnectStep, noEffects]

/-- Claim C2 (amended): whenever the WebSocket transitions to open, the
handler clears the in-flight error flag but emits no lifecycle event; and
whenever the socket closes or errors without the client having been stopped
on purpose, a reconnect is scheduled via the backoff function created with a
100 ms starting delay (while budget remains), again without emitting any
lifecycle event. -/
theorem ws_lifecycle_amended :
    (∀ s : WsState,
        (step s WsEvent.opened).1.processingError = false ∧
        (step s WsEvent.opened).2.emits = []) ∧
    backoffStartDelay = 100 ∧
    (∀ b : Nat,
        (step ⟨false, false, b + 1⟩ WsEvent.closed).2.reconnects = 1 ∧
        (step ⟨false, false, b + 1⟩ WsEvent.closed).2.emits = []) ∧
    (∀ (b : Nat) (pe : Bool),
        (step ⟨false, pe, b + 1⟩ WsEvent.errored).2.reconnects = 1 ∧
        (step ⟨false, pe, b + 1⟩ WsEvent.errored).2.emits = []) := by
  refine ⟨fun s => ⟨rfl, rfl⟩, rfl, fun b => ?_, fun b pe => ?_⟩
  all_goals simp [step, reconnectStep, noEffects]

/-- Claim C3: once stop() has set the closed-on-purpose flag, no reconnect is
scheduled for any event stream the stopped socket can still deliver (error
events and idempotent stop calls, followed by at most one final close); by
contrast a close of a live socket (flag not set, no in-flight error) does
schedule a reconnect while backoff budget remains. -/
theorem stop_inhibits_reconnect :
    (∀ (s : WsState) (es : List WsEvent), s.wsClosed = true → StopTail es →
        (runEvents s es).2.reconnects = 0) ∧
    (∀ b : Nat, (step ⟨false, false, b + 1⟩ WsEvent.closed).2.reconnects = 1) := by
  constructor
  · intro s es hw h
    exact stopTail_no_reconnect h s hw
  · intro b
    simp [step, reconnectStep]

/-- Claim C3 witness: after stop, the stream error-then-close schedules no
reconnect, while a close of a live socket schedules one. -/
theorem stop_inhibits_reconnect_witness :
    (runEvents ⟨true, false, 5⟩ [WsEvent.errored, WsEvent.closed]).2.reconnects = 0 ∧
    (step ⟨false, false, 3⟩ WsEvent.closed).2.reconnects = 1 :=
  ⟨stop_inhibits_reconnect.1 ⟨true, false, 5⟩ [WsEvent.errored, WsEvent.closed] rfl
      (StopTail.consError StopTail.lastClose),
   stop_inhibits_reconnect.2 2⟩

/-- Claim C10: an error event followed by a close event on a live socket
schedules exactly one reconnect (the error handler reconnects and raises the
processing-error flag, which makes the close handler skip its own reconnect);
the flag survives every handler except the open handler, which clears it. -/
theorem error_close_single_reconnect :
    (∀ b : Nat,
        (runEvents ⟨false, false, b + 1⟩ [WsEvent.errored, WsEvent.closed]).2.reconnects = 1) ∧
    (∀ (s : WsState) (e : WsEvent), s.processingError = true → e ≠ WsEvent.opened →
        (step s e).1.processingError = true) ∧
    (∀ s : WsState, (step s WsEvent.opened).1.processingError = false) := by
  refine ⟨fun b => ?_, fun s e hpe hne => ?_, fun s => rfl⟩
  · simp [runEvents, step, reconnectStep, noEffects]
  · cases e with
    | opened => exact absurd rfl hne
    | closed =>
        by_cases hw : s.wsClosed = true <;> simp [step, hw, hpe, reconnectStep, noEffects]
    | errored =>
        by_cases hw : s.wsClosed = true
        · simp [step, hw, hpe, reconnectStep, noEffects]
        · simp only [step, hw, if_false, Bool.false_eq_true, reconnectStep]
          split <;> simp
    | stopCall => simpa [step] using hpe

/-- Claim C10 witness: concrete instances of the three conjuncts. -/
theorem error_close_single_reconnect_witness :
    (runEvents ⟨false, false, 3⟩ [WsEvent.errored, WsEvent.closed]).2.reconnects = 1 ∧
    (step ⟨true, true, 3⟩ WsEvent.closed).1.processingError = true :=
  ⟨error_close_single_reconnect.1 2,
   error_close_single_reconnect.2.1 ⟨true, true, 3⟩ WsEvent.closed rfl (by decide)⟩

/-! ## Event demultiplexer (processMessage in Client.prototype.start)

processMessage parses the frame, looks up the event model by the type field,
and walks the model properties.  Every property whose declared dataType is a
known resource type and whose value is present on the event is promoted to a
resource instance; matching entries of the instance-listener table are
scanned, once-listeners are dropped, and the promoted identity is recorded
for the scoped emissions, de-duplicated through the instanceIds list. -/

/-- A promoted resource instance.  Modelled from the spec: the factory
_resources[dataType](client, value) lives in lib/resources.js, which is not
part of the available sources; per the spec the instance is seeded from the
embedded value and carries a stable string identity, which is all that
processMessage reads from it (instance._id().toString()). -/
structure Instance where
  resType : String
  idVal : String
deriving DecidableEq, Repr

/-- Modelled from the spec: _resources.knownTypes of lib/resources.js is not
part of the available sources; the spec names these resource types. -/
def knownTypes : List String :=
  ["Channel", "Bridge", "Playback", "LiveRecording",
   "Mailbox", "Endpoint", "DeviceState", "Sound"]

/-- One property of an event model from the events schema document. -/
structure EventProp where
  name : String
  dataType : String
deriving DecidableEq, Repr

/-- An event model from the events schema document. -/
structure EventModel where
  properties : List EventProp
deriving DecidableEq, Repr

/-- A parsed inbound event frame: the type field plus the present properties,
each recorded with the identity carried by its embedded resource object. -/
structure InEvent where
  type : String
  fields : List (String × String)
deriving DecidableEq, Repr

/-- Property access event[name] for the present properties. -/
def InEvent.get (ev : InEvent) (k : String) : Option String :=
  ev.fields.lookup k

/-- One entry of self._instanceListeners[eventType]: the once flag, the
instance identity and a key standing for the callback reference. -/
structure Listener where
  once : Bool
  lid : String
  key : Nat
deriving DecidableEq, Repr

/-- JavaScript object assignment resources[name] = instance: replace the
value in place when the key exists, append otherwise. -/
def upsert (k : String) (v : Instance) :
    List (String × Instance) → List (String × Instance)
  | [] => [(k, v)]
  | kv :: rest => if kv.1 = k then (k, v) :: rest else kv :: upsert k v rest

/-- The inner loop of processMessage over the listener row: for a matching
listener the identity is pushed onto instanceIds unless already present, and
the listener is kept unless its once flag is set; non-matching listeners are
kept untouched. -/
def scanListeners (i : String) : List String → List Listener →
    List String × List Listener
  | ids, [] => (ids, [])
  | ids, l :: rest =>
      if l.lid = i then
        let ids1 := if i ∈ ids then ids else ids ++ [i]
        let r := scanListeners i ids1 rest
        if l.once then r else (r.1, l :: r.2)
      else
        let r := scanListeners i ids rest
        (r.1, l :: r.2)

/-- Accumulator of the property loop of processMessage: the resources object,
the de-duplicated instanceIds list and the listener row for the event type. -/
structure DemuxAcc where
  resources : List (String × Instance)
  instanceIds : List String
  row : Option (List Listener)
deriving DecidableEq, Repr

/-- The body of the property loop of processMessage, translated clause by
clause: promotion guard, resources update, and the listener-row scan (the
scan runs only when the row exists). -/
def stepProp (ev : InEvent) (acc : DemuxAcc) (p : EventProp) : DemuxAcc :=
  match ev.get p.name with
  | none => acc
  | some v =>
      if p.dataType ∈ knownTypes then
        let inst : Instance := ⟨p.dataType, v⟩
        let rs := upsert p.name inst acc.resources
        match acc.row with
        | none => { acc with resources := rs }
        | some ls =>
            let r := scanListeners v acc.instanceIds ls
            ⟨rs, r.1, some r.2⟩
      else acc

/-- The property loop of processMessage over the whole event model. -/
def demux (model : EventModel) (row : Option (List Listener)) (ev : InEvent) :
    DemuxAcc :=
  model.properties.foldl (stepProp ev) ⟨[], [], row⟩

/-- The second argument of the global emission, as selected by the promoted
count switch at the end of processMessage. -/
inductive ResourcesArg where
  | undef
  | single (i : Instance)
  | multi (m : List (String × Instance))
deriving DecidableEq, Repr

def resourcesArg (rs : List (String × Instance)) : ResourcesArg :=
  match rs with
  | [] => ResourcesArg.undef
  | [kv] => ResourcesArg.single kv.2
  | _ => ResourcesArg.multi rs

/-- The scoped emissions at the end of processMessage, one per recorded
identity, written as the pair of the event type and the identity that the
emitted name eventType-instanceId encodes. -/
def scopedDeliveries (ev : InEvent) (ids : List String) :
    List (String × String) :=
  ids.map (fun i => (ev.type, i))

/-- The promotion of a single event-model property, as the guard of the
property loop decides it. -/
def promoteOf (ev : InEvent) (p : EventProp) : Option (String × Instance) :=
  match ev.get p.name with
  | none => none
  | some v =>
      if p.dataType ∈ knownTypes then some (p.name, ⟨p.dataType, v⟩) else none

/-- The list of promoted properties of an event, in model order. -/
def promotedProps (model : EventModel) (ev : InEvent) :
    List (String × Instance) :=
  model.properties.filterMap (promoteOf ev)

lemma upsert_of_not_mem (k : String) (v : Instance) :
    ∀ rs : List (String × Instance), k ∉ rs.map Prod.fst →
      upsert k v rs = rs ++ [(k, v)] := by
  intro rs
  induction rs with
  | nil => intro _; rfl
  | cons kv rest ih =>
      intro h
      simp only [List.map_cons, List.mem_cons] at h
      push_neg at h
      simp [upsert, Ne.symm h.1, ih h.2]

lemma stepProp_resources_keys (ev : InEvent) (acc : DemuxAcc) (p : EventProp) :
    ((stepProp ev acc p).resources.map Prod.fst)
      ⊆ p.name :: acc.resources.map Prod.fst := by
  unfold stepProp
  cases hv : ev.get p.name with
  | none => exact fun k hk => List.mem_cons_of_mem _ hk
  | some v =>
      by_cases hk : p.dataType ∈ knownTypes
      · simp only [hk, if_true]
        have hup : ∀ rs : List (String × Instance),
            (upsert p.name ⟨p.dataType, v⟩ rs).map Prod.fst
              ⊆ p.name :: rs.map Prod.fst := by
          intro rs
          induction rs with
          | nil => simp [upsert]
          | cons kv rest ih =>
              by_cases he : kv.1 = p.name
              · simp [upsert, he]
              · intro k hkmem
                simp only [upsert, he, if_false, List.map_cons, List.mem_cons] at hkmem
                rcases hkmem with h1 | h2
                · exact List.mem_cons_of_mem _ (by simp [h1])
                · rcases List.mem_cons.mp (ih h2) with h3 | h4
                  · simp [h3]
                  · exact List.mem_cons_of_mem _ (List.mem_cons_of_mem _ h4)
        cases hrow : acc.row with
        | none => simpa using hup acc.resources
        | some ls => simpa using hup acc.resources
      · simp only [hk, if_false]
        exact fun k hkm => List.mem_cons_of_mem _ hkm

lemma foldl_resources (ev : InEvent) :
    ∀ (props : List EventProp) (acc : DemuxAcc),
      (props.map EventProp.name).Nodup →
      (∀ k, k ∈ acc.resources.map Prod.fst → k ∉ props.map EventProp.name) →
      (props.foldl (stepProp ev) acc).resources
        = acc.resources ++ props.filterMap (promoteOf ev) := by
  intro props
  induction props with
  | nil => intro acc _ _; simp
  | cons p rest ih =>
      intro acc hnd hdisj
      simp only [List.map_cons, List.nodup_cons] at hnd
      have hpn : p.name ∉ acc.resources.map Prod.fst := by
        intro hmem
        exact hdisj p.name hmem (by simp)
      have hstep : (stepProp ev acc p).resources
          = acc.resources ++ (promoteOf ev p).toList := by
        unfold stepProp promoteOf
        cases hv : ev.get p.name with
        | none => simp
        | some v =>
            by_cases hk : p.dataType ∈ knownTypes
            · simp only [hk, if_true]
              cases hrow : acc.row with
              | none => simpa using upsert_of_not_mem p.name ⟨p.dataType, v⟩ acc.resources hpn
              | some ls => simpa using upsert_of_not_mem p.name ⟨p.dataType, v⟩ acc.resources hpn
            · simp [hk]
      have hdisj2 : ∀ k, k ∈ (stepProp ev acc p).resources.map Prod.fst →
          k ∉ rest.map EventProp.name := by
        intro k hk
        rcases List.mem_cons.mp (stepProp_resources_keys ev acc p hk) with h1 | h2
        · subst h1; exact hnd.1
        · exact fun hmem => hdisj k h2 (List.mem_cons_of_mem _ hmem)
      rw [List.foldl_cons, ih (stepProp ev acc p) hnd.2 hdisj2, hstep]
      cases hpo : promoteOf ev p <;> simp [hpo]

lemma demux_resources (model : EventModel) (row : Option (List Listener))
    (ev : InEvent) (hnd : (model.properties.map EventProp.name).Nodup) :
    (demux model row ev).resources = promotedProps model ev := by
  unfold demux promotedProps
  simpa using foldl_resources ev model.properties ⟨[], [], row⟩ hnd (by simp)

/-- Claim C1: the second argument delivered with the global event emission is
decided by the number of promoted event properties: none promoted gives the
undefined argument, exactly one promoted gives that single instance itself,
and two or more promoted give the property-name-to-instance mapping. -/
theorem global_emission_second_arg (model : EventModel)
    (row : Option (List Listener)) (ev : InEvent)
    (hnd : (model.properties.map EventProp.name).Nodup) :
    (promotedProps model ev = [] →
        resourcesArg (demux model row ev).resources = ResourcesArg.undef) ∧
    (∀ k i, promotedProps model ev = [(k, i)] →
        resourcesArg (demux model row ev).resources = ResourcesArg.single i) ∧
    (2 ≤ (promotedProps model ev).length →
        resourcesArg (demux model row ev).resources
          = ResourcesArg.multi (promotedProps model ev)) := by
  rw [demux_resources model row ev hnd]
  refine ⟨fun h0 => by simp [h0, resourcesArg], fun k i h1 => by simp [h1, resourcesArg], ?_⟩
  intro h2
  cases hpr : promotedProps model ev with
  | nil => simp [hpr] at h2
  | cons a rest =>
      cases rest with
      | nil => simp [hpr] at h2
      | cons b rest2 => simp [resourcesArg]

/-- Claim C1 witness: a two-property event model where exactly the channel
property is present promotes one instance, which is delivered bare. -/
theorem global_emission_second_arg_witness :
    resourcesArg (demux ⟨[⟨"channel", "Channel"⟩, ⟨"bridge", "Bridge"⟩]⟩
        (some []) ⟨"ChannelDtmfReceived", [("channel", "c1")]⟩).resources
      = ResourcesArg.single ⟨"Channel", "c1"⟩ :=
  (global_emission_second_arg ⟨[⟨"channel", "Channel"⟩, ⟨"bridge", "Bridge"⟩]⟩
      (some []) ⟨"ChannelDtmfReceived", [("channel", "c1")]⟩
      (by decide)).2.1 "channel" ⟨"Channel", "c1"⟩ (by decide)

lemma count_le_one_of_nodup {α : Type} [BEq α] [LawfulBEq α] (a : α) :
    ∀ l : List α, l.Nodup → l.count a ≤ 1 := by
  intro l
  induction l with
  | nil => intro _; simp
  | cons b t ih =>
      intro h
      rcases List.nodup_cons.mp h with ⟨hb, ht⟩
      rw [List.count_cons]
      by_cases hba : b = a
      · subst hba
        have h0 : t.count b = 0 := List.count_eq_zero.mpr hb
        simp [h0]
      · simpa [hba] using ih ht

lemma scan_ids_nodup (i : String) :
    ∀ (ls : List Listener) (ids : List String), ids.Nodup →
      ((scanListeners i ids ls).1).Nodup := by
  intro ls
  induction ls with
  | nil => intro ids h; exact h
  | cons l rest ih =>
      intro ids h
      by_cases hl : l.lid = i
      · by_cases hm : i ∈ ids
        · by_cases ho : l.once = true <;>
            simp [scanListeners, hl, hm, ho, ih ids h]
        · have h1 : (ids ++ [i]).Nodup :=
            h.append (List.nodup_singleton i) (by simpa using hm)
          by_cases ho : l.once = true <;>
            simp [scanListeners, hl, hm, ho, ih (ids ++ [i]) h1]
      · simp [scanListeners, hl, ih ids h]

lemma stepProp_ids_nodup (ev : InEvent) (acc : DemuxAcc) (p : EventProp)
    (h : acc.instanceIds.Nodup) : ((stepProp ev acc p).instanceIds).Nodup := by
  unfold stepProp
  cases hv : ev.get p.name with
  | none => exact h
  | some v =>
      by_cases hk : p.dataType ∈ knownTypes
      · cases hrow : acc.row with
        | none => simpa [hk, hrow] using h
        | some ls => simpa [hk, hrow] using scan_ids_nodup v ls acc.instanceIds h
      · simpa [hk] using h

lemma demux_ids_nodup (model : EventModel) (row : Option (List Listener))
    (ev : InEvent) : ((demux model row ev).instanceIds).Nodup := by
  unfold demux
  have hgen : ∀ (props : List EventProp) (acc : DemuxAcc), acc.instanceIds.Nodup →
      ((props.foldl (stepProp ev) acc).instanceIds).Nodup := by
    intro props
    induction props with
    | nil => intro acc h; exact h
    | cons p rest ih =>
        intro acc h
        exact ih (stepProp ev acc p) (stepProp_ids_nodup ev acc p h)
  exact hgen model.properties ⟨[], [], row⟩ (by simp)

/-- Claim C4: for any inbound event and any identity x, the scoped delivery
for the pair of the event and x fires at most once: the recorded instanceIds
list holds x at most once, and so does the list of scoped emissions. -/
theorem scoped_delivery_deduplicated (model : EventModel)
    (row : Option (List Listener)) (ev : InEvent) (x : String) :
    ((demux model row ev).instanceIds).count x ≤ 1 ∧
    (scopedDeliveries ev (demux model row ev).instanceIds).count (ev.type, x) ≤ 1 := by
  have hnd := demux_ids_nodup model row ev
  refine ⟨List.nodup_iff_count_le_one.mp hnd x, ?_⟩
  unfold scopedDeliveries
  have hinj : Function.Injective (fun i : String => (ev.type, i)) := by
    intro a b hab
    simpa using congrArg Prod.snd hab
  have hmap : ((demux model row ev).instanceIds.map
      (fun i : String => (ev.type, i))).Nodup := hnd.map hinj
  exact count_le_one_of_nodup (ev.type, x) _ hmap

/-- Modelled from the spec: the listeners a scoped emission reaches.  The
registration side lives in lib/resources.js, which is not part of the
available sources; per the spec the scoped fan-out notifies exactly the
listeners of the row whose instance identity matches a promoted identity of
the event, and processMessage emits the scoped event names for precisely the
identities recorded in instanceIds. -/
def scopedInvokedListeners (row : Option (List Listener)) (model : EventModel)
    (ev : InEvent) : List Listener :=
  (row.getD []).filter
    (fun l => decide (l.lid ∈ (demux model row ev).instanceIds))

/-- No listener of the row is a pending once-registration for identity x. -/
def rowClean (x : String) : Option (List Listener) → Prop
  | none => True
  | some ls => ∀ l ∈ ls, ¬(l.once = true ∧ l.lid = x)

lemma scan_row_mem (i : String) :
    ∀ (ls : List Listener) (ids : List String) (l : Listener),
      l ∈ (scanListeners i ids ls).2 →
      l ∈ ls ∧ ¬(l.once = true ∧ l.lid = i) := by
  intro ls
  induction ls with
  | nil => intro ids l h; simp [scanListeners] at h
  | cons l0 rest ih =>
      intro ids l h
      simp only [scanListeners] at h
      by_cases hl : l0.lid = i
      · rw [if_pos hl] at h
        by_cases ho : l0.once = true
        · rw [if_pos ho] at h
          rcases ih _ l h with ⟨hm, hn⟩
          exact ⟨List.mem_cons_of_mem _ hm, hn⟩
        · rw [if_neg ho] at h
          rcases List.mem_cons.mp h with h0 | h1
          · subst h0
            exact ⟨List.mem_cons_self _ _, fun hc => ho hc.1⟩
          · rcases ih _ l h1 with ⟨hm, hn⟩
            exact ⟨List.mem_cons_of_mem _ hm, hn⟩
      · rw [if_neg hl] at h
        rcases List.mem_cons.mp h with h0 | h1
        · subst h0
          exact ⟨List.mem_cons_self _ _, fun hc => hl hc.2⟩
        · rcases ih _ l h1 with ⟨hm, hn⟩
          exact ⟨List.mem_cons_of_mem _ hm, hn⟩

lemma rowClean_stepProp (x : String) (ev : InEvent) (acc : DemuxAcc)
    (p : EventProp) (h : rowClean x acc.row) :
    rowClean x (stepProp ev acc p).row := by
  unfold stepProp
  cases hv : ev.get p.name with
  | none => exact h
  | some v =>
      by_cases hk : p.dataType ∈ knownTypes
      · cases hrow : acc.row with
        | none => simpa [hk, hrow] using h
        | some ls =>
            simp only [hk, if_true, hrow]
            intro l hm hc
            rcases scan_row_mem v ls acc.instanceIds l hm with ⟨hmem, _⟩
            rw [hrow] at h
            exact h l hmem hc
      · simpa [hk] using h

lemma rowClean_clear (x : String) (ev : InEvent) (acc : DemuxAcc)
    (p : EventProp) (hk : p.dataType ∈ knownTypes)
    (hv : ev.get p.name = some x) :
    rowClean x (stepProp ev acc p).row := by
  unfold stepProp
  rw [hv]
  simp only [hk, if_true]
  cases hrow : acc.row with
  | none => trivial
  | some ls =>
      intro l hm hc
      rcases scan_row_mem x ls acc.instanceIds l hm with ⟨_, hn⟩
      exact hn hc

lemma rowClean_foldl (x : String) (ev : InEvent) :
    ∀ (props : List EventProp) (acc : DemuxAcc), rowClean x acc.row →
      rowClean x ((props.foldl (stepProp ev) acc).row) := by
  intro props
  induction props with
  | nil => intro acc h; exact h
  | cons p rest ih =>
      intro acc h
      exact ih (stepProp ev acc p) (rowClean_stepProp x ev acc p h)

/-- Claim C5: after an event of some type carrying promoted identity x is
dispatched, every once-registration for identity x is gone from the
instance-listener row for that type, so no later scoped fan-out from that row
reaches it. -/
theorem once_scoped_listener_removed (model : EventModel) (ls : List Listener)
    (ev : InEvent) (p : EventProp) (x : String) (l : Listener)
    (hp : p ∈ model.properties) (hk : p.dataType ∈ knownTypes)
    (hv : ev.get p.name = some x) (hl : l.once = true) (hx : l.lid = x)
    (model2 : EventModel) (ev2 : InEvent) :
    l ∉ ((demux model (some ls) ev).row.getD []) ∧
    l ∉ scopedInvokedListeners ((demux model (some ls) ev).row) model2 ev2 := by
  have hfin : rowClean x ((demux model (some ls) ev).row) := by
    rcases List.append_of_mem hp with ⟨s, t, hst⟩
    unfold demux
    rw [hst, List.foldl_append, List.foldl_cons]
    exact rowClean_foldl x ev t _
      (rowClean_clear x ev (s.foldl (stepProp ev) ⟨[], [], some ls⟩) p hk hv)
  have h1 : l ∉ ((demux model (some ls) ev).row.getD []) := by
    cases hrow : (demux model (some ls) ev).row with
    | none => simp
    | some ls2 =>
        rw [hrow] at hfin
        intro hm
        exact hfin l (by simpa using hm) ⟨hl, hx⟩
  refine ⟨h1, fun hm => h1 ?_⟩
  exact List.mem_of_mem_filter hm

/-- Claim C5 witness: a once-listener for identity c1 is removed by the first
ChannelDtmfReceived event carrying c1 and is not reached by a second one. -/
theorem once_scoped_listener_removed_witness :
    (⟨true, "c1", 7⟩ : Listener) ∉
      ((demux ⟨[⟨"channel", "Channel"⟩]⟩ (some [⟨true, "c1", 7⟩])
          ⟨"ChannelDtmfReceived", [("channel", "c1")]⟩).row.getD []) ∧
    (⟨true, "c1", 7⟩ : Listener) ∉
      scopedInvokedListeners
        ((demux ⟨[⟨"channel", "Channel"⟩]⟩ (some [⟨true, "c1", 7⟩])
            ⟨"ChannelDtmfReceived", [("channel", "c1")]⟩).row)
        ⟨[⟨"channel", "Channel"⟩]⟩ ⟨"ChannelDtmfReceived", [("channel", "c1")]⟩ :=
  once_scoped_listener_removed ⟨[⟨"channel", "Channel"⟩]⟩ [⟨true, "c1", 7⟩]
    ⟨"ChannelDtmfReceived", [("channel", "c1")]⟩ ⟨"channel", "Channel"⟩ "c1"
    ⟨true, "c1", 7⟩ (by simp) (by decide) (by decide) rfl rfl
    ⟨[⟨"channel", "Channel"⟩]⟩ ⟨"ChannelDtmfReceived", [("channel", "c1")]⟩

/-! ## Frame handling of processMessage

processMessage starts with event = an empty object, replaced by
JSON.parse(msg) when msg is truthy, then looks the event model up by the
type field and immediately dereferences eventModel.properties.  There is no
try block and no logging in the handler: an unparsable frame propagates the
JSON.parse exception, and a type with no matching event model makes the
eventModel lookup yield undefined, so reading its properties throws. -/

/-- Failures that escape the message handler. -/
inductive MsgFailure where
  | jsonSyntaxError
  | missingEventModel
deriving DecidableEq, Repr

/-- The observable outcome of a successful dispatch: the global emission with
its second argument, the scoped emissions, and the updated listener row. -/
structure MsgOutcome where
  globalEmit : String × ResourcesArg
  scopedEmits : List (String × String)
  newRow : Option (List Listener)
deriving DecidableEq, Repr

/-- The lookup over self._swagger.apis.events.models by the type field. -/
def lookupModel (models : List (String × EventModel)) (t : String) :
    Option EventModel :=
  (models.find? (fun kv => kv.1 = t)).map (fun kv => kv.2)

/-- The whole message handler.  The frame argument is none for a falsy
message (the event stays the empty object, whose type matches no model), an
error value when JSON.parse throws, and a parsed event otherwise. -/
def processMessage (models : List (String × EventModel))
    (row : Option (List Listener)) (frame : Option (Except Unit InEvent)) :
    Except MsgFailure MsgOutcome :=
  match frame with
  | none => Except.error MsgFailure.missingEventModel
  | some (Except.error _) => Except.error MsgFailure.jsonSyntaxError
  | some (Except.ok ev) =>
      match lookupModel models ev.type with
      | none => Except.error MsgFailure.missingEventModel
      | some model =>
          let d := demux model row ev
          Except.ok
            ⟨(ev.type, resourcesArg d.resources),
             scopedDeliveries ev d.instanceIds, d.row⟩

/-- Claim C8 counterexample: at a concrete schema holding only the
PlaybackFinished model, a frame of the unknown type Bogus and an unparsable
frame both make the handler throw instead of being logged and skipped with
dispatch continuing. -/
theorem protocol_error_fatal_cex :
    processMessage [("PlaybackFinished", ⟨[⟨"playback", "Playback"⟩]⟩)]
        (some []) (some (Except.ok ⟨"Bogus", []⟩))
      = Except.error MsgFailure.missingEventModel ∧
    processMessage [("PlaybackFinished", ⟨[⟨"playback", "Playback"⟩]⟩)]
        (some []) (some (Except.error ()))
      = Except.error MsgFailure.jsonSyntaxError := by
  exact ⟨rfl, rfl⟩

/-- Claim C8 (amended): a malformed or unrecognized inbound event frame makes
the message handler throw: an unparsable frame propagates the JSON.parse
exception, and a type with no matching event model in the schema raises a
type error from the undefined model; the handler neither catches nor logs
either failure, so no dispatch outcome is produced for such a frame. -/
theorem protocol_error_throws (models : List (String × EventModel))
    (row : Option (List Listener)) (ev : InEvent)
    (h : lookupModel models ev.type = none) :
    processMessage models row (some (Except.ok ev))
        = Except.error MsgFailure.missingEventModel ∧
    processMessage models row (some (Except.error ()))
        = Except.error MsgFailure.jsonSyntaxError ∧
    processMessage models row none
        = Except.error MsgFailure.missingEventModel := by
  refine ⟨?_, rfl, rfl⟩
  simp [processMessage, h]

/-- Claim C8 amended witness: the unknown type Bogus against a schema with
only the PlaybackFinished model. -/
theorem protocol_error_throws_witness :
    processMessage [("PlaybackFinished", ⟨[⟨"playback", "Playback"⟩]⟩)]
        (some []) (some (Except.ok ⟨"Bogus", [("playback", "p1")]⟩))
      = Except.error MsgFailure.missingEventModel :=
  (protocol_error_throws [("PlaybackFinished", ⟨[⟨"playback", "Playback"⟩]⟩)]
      (some []) ⟨"Bogus", [("playback", "p1")]⟩ (by decide)).1

/-! ## HTTP operation glue (callSwagger, processResponse, swaggerError)

callSwagger separates the caller callback from the options argument; a
missing, null, function or array options value is replaced by a fresh empty
object, and otherwise the options object is cloned before
_utils.parseBodyParams transforms it, because swagger can alter the options
passed in.  To make object mutation observable the options objects live in a
small store of references. -/

/-- A shallow option map: the top-level fields of a caller options object. -/
abbrev OptMap : Type := List (String × String)

/-- A store of option objects: the next fresh reference and the memory. -/
structure Store where
  next : Nat
  mem : List (Nat × OptMap)
deriving Repr

def Store.get (σ : Store) (r : Nat) : Option OptMap :=
  (σ.mem.find? (fun kv => kv.1 = r)).map (fun kv => kv.2)

def Store.set (σ : Store) (r : Nat) (m : OptMap) : Store :=
  ⟨σ.next, (r, m) :: σ.mem⟩

def Store.alloc (σ : Store) (m : OptMap) : Nat × Store :=
  (σ.next, ⟨σ.next + 1, (σ.next, m) :: σ.mem⟩)

/-- The shapes the options argument of callSwagger can take: undefined, null,
a function, an array, or an object reference. -/
inductive JsArg where
  | undef
  | nullv
  | funcv
  | arrv
  | objv (r : Nat)
deriving DecidableEq, Repr

/-- The options handling of callSwagger: non-object shapes become a fresh
empty object; an object is cloned and the clone is transformed in place by
_utils.parseBodyParams.  The transformation is kept abstract because
lib/utils.js is not part of the available sources; the theorem below holds
for every transformation of the clone. -/
def prepareOptions (transform : OptMap → OptMap) (σ : Store) (a : JsArg) :
    Nat × Store :=
  match a with
  | JsArg.objv r =>
      let m := (σ.get r).getD []
      let p := σ.alloc m
      (p.1, p.2.set p.1 (transform m))
  | _ => σ.alloc []

lemma store_get_set_ne (σ : Store) (r r2 : Nat) (m : OptMap) (h : r2 ≠ r) :
    (σ.set r2 m).get r = σ.get r := by
  simp [Store.set, Store.get, List.find?, h]

lemma store_get_alloc (σ : Store) (r : Nat) (m : OptMap) (h : r < σ.next) :
    ((σ.alloc m).2).get r = σ.get r := by
  have hne : σ.next ≠ r := by omega
  simp [Store.alloc, Store.get, List.find?, hne]

/-- Claim C6: for any operation invocation, the caller-supplied options
object is never mutated: whatever the options argument is and whatever the
body-parameter transformation does to the clone, every previously allocated
object of the store, in particular the caller's options map, is field-wise
unchanged. -/
theorem options_not_mutated (transform : OptMap → OptMap) (σ : Store)
    (a : JsArg) (r : Nat) (h : r < σ.next) :
    ((prepareOptions transform σ a).2).get r = σ.get r := by
  cases a with
  | objv r2 =>
      have h1 : σ.next ≠ r := by omega
      simp [prepareOptions, Store.alloc, Store.set, Store.get, List.find?, h1]
  | undef => exact store_get_alloc σ r [] h
  | nullv => exact store_get_alloc σ r [] h
  | funcv => exact store_get_alloc σ r [] h
  | arrv => exact store_get_alloc σ r [] h

/-- Claim C6 witness: a concrete store with one caller object, transformed by
a body-building function, keeps the original object unchanged. -/
theorem options_not_mutated_witness :
    ((prepareOptions (fun m => ("body", "x") :: m)
        ⟨1, [(0, [("type", "holding")])]⟩ (JsArg.objv 0)).2).get 0
      = (⟨1, [(0, [("type", "holding")])]⟩ : Store).get 0 :=
  options_not_mutated (fun m => ("body", "x") :: m)
    ⟨1, [(0, [("type", "holding")])]⟩ (JsArg.objv 0) 0 (by decide)

/-! ### Error surfacing (swaggerError) and the callback guard

swaggerError wraps the error as new Error(err.data.toString(utf-8)) whenever
the error object carries response data, and then calls userCallback
unconditionally; processResponse instead guards its whole body with
an isFunction check on userCallback. -/

/-- The error value swagger hands to swaggerError: optional response data
and the message of the original error object. -/
structure SwaggerErr where
  data : Option String
  message : String
deriving DecidableEq, Repr

/-- What swaggerError passes to the user callback. -/
inductive ErrArg where
  | noErr
  | raw (e : SwaggerErr)
  | wrapped (message : String)
deriving DecidableEq, Repr

/-- The rewrapping at the top of swaggerError. -/
def surfaceError (err : Option SwaggerErr) : ErrArg :=
  match err with
  | none => ErrArg.noErr
  | some e =>
      match e.data with
      | some d => ErrArg.wrapped d
      | none => ErrArg.raw e

/-- The message of the error delivered to the caller. -/
def ErrArg.messageOf : ErrArg → Option String
  | ErrArg.noErr => none
  | ErrArg.raw e => some e.message
  | ErrArg.wrapped m => some m

/-- Claim C7: when an operation receives a non-2xx response, swagger supplies
an error object whose data field holds the response body; the error surfaced
to the caller is a fresh Error whose message is that body string verbatim. -/
theorem surfaced_message_verbatim (body : String) (origMessage : String) :
    surfaceError (some ⟨some body, origMessage⟩) = ErrArg.wrapped body ∧
    (surfaceError (some ⟨some body, origMessage⟩)).messageOf = some body := by
  exact ⟨rfl, rfl⟩

/-- The last argument of an operation call: either a function or some
non-function value (the options object itself, or undefined). -/
inductive CbVal where
  | funcv (k : Nat)
  | notFunc (tag : String)
deriving DecidableEq, Repr

/-- The outcome of one delivery attempt to the user callback. -/
inductive CallOutcome (α : Type) where
  | invoked (k : Nat) (arg : α)
  | typeErrorThrown
  | discarded
deriving DecidableEq, Repr

/-- A JavaScript call of the callback value: calling a non-function throws a
type error. -/
def jsCall {α : Type} (cb : CbVal) (arg : α) : CallOutcome α :=
  match cb with
  | CbVal.funcv k => CallOutcome.invoked k arg
  | CbVal.notFunc _ => CallOutcome.typeErrorThrown

/-- processResponse: the whole body, including the delivery, sits under an
isFunction guard on userCallback, so a non-function callback discards the
response silently. -/
def processResponse {α : Type} (result : α) (cb : CbVal) : CallOutcome α :=
  match cb with
  | CbVal.funcv k => CallOutcome.invoked k result
  | CbVal.notFunc _ => CallOutcome.discarded

/-- swaggerError: after the rewrapping, userCallback(err) is called with no
isFunction guard. -/
def deliverError (cb : CbVal) (err : Option SwaggerErr) : CallOutcome ErrArg :=
  jsCall cb (surfaceError err)

/-- Claim C9: with a non-function last argument a successful response is
silently discarded while an error response still calls the last argument,
throwing a type error; with a function last argument both paths invoke it. -/
theorem callback_guard_asymmetry (tag : String) (result : String)
    (err : Option SwaggerErr) (k : Nat) :
    processResponse result (CbVal.notFunc tag) = CallOutcome.discarded ∧
    deliverError (CbVal.notFunc tag) err = CallOutcome.typeErrorThrown ∧
    processResponse result (CbVal.funcv k) = CallOutcome.invoked k result ∧
    deliverError (CbVal.funcv k) err = CallOutcome.invoked k (surfaceError err) := by
  exact ⟨rfl, rfl, rfl, rfl⟩

end AriClient
